import Mathlib

/-! rpi-i2c: I2C timing utility for the BCM2711 (embedding of `src/rpi_i2c.c`)

The C program maps the BSC1 register window, prints it, and (when called with
`cdiv tout [FEDL REDL]`) rewrites the `DIV`, `CLKT` and `DEL` registers.

Conventions of the embedding:
* unsigned C integers are `Nat`, with an explicit `% 2 ^ w` at every narrowing
  conversion; `long` and `int` values are `Int`;
* `argv` is the whole argument vector, `argv[0]` included, so `argc = argv.length`;
* everything outside the process (errno at entry, `/dev/mem`, `mmap`, the DebugFS
  clock file, the live registers, the `bcm_host` answers) is a field of `Env`;
* `printf`/`perror` calls are recorded as `Out` events carrying the numbers printed;
* a division by zero and a dereference of `MAP_FAILED` are recorded as a `Fault`.
-/

namespace RpiI2c

/-! ## C environment: `long`, `errno`, `strtol` -/

/-- C data model of the build: it fixes the width of `long` (32-bit Raspberry Pi OS
is ILP32, 64-bit Raspberry Pi OS is LP64). -/
inductive ABI where
  | ilp32
  | lp64
deriving DecidableEq

/-- Largest `long` of the data model. -/
def LONG_MAX : ABI → Int
  | .ilp32 => 2147483647
  | .lp64 => 9223372036854775807

/-- Smallest `long` of the data model. -/
def LONG_MIN (abi : ABI) : Int := -(LONG_MAX abi) - 1

/-- Linux value of `ERANGE`. -/
def ERANGE : Int := 34

/-- C `isspace` in the "C" locale: space, and `\t \n \v \f \r` (codes 9 to 13). -/
def isspace (c : Char) : Bool := decide (c.toNat = 32) || (decide (9 ≤ c.toNat) && decide (c.toNat ≤ 13))

/-- C `isdigit`: codes 48 to 57. -/
def isdigit (c : Char) : Bool := decide (48 ≤ c.toNat) && decide (c.toNat ≤ 57)

/-- Leading white space skipped by `strtol`. -/
def skip_space : List Char → List Char
  | [] => []
  | c :: cs => if isspace c then skip_space cs else c :: cs

/-- Digit loop of `strtol` in base 10: the exact value of the longest run of digits
at the head of the input, and whether at least one digit was consumed. -/
def read_digits : List Char → Nat → Bool → Nat × Bool
  | [], acc, seen => (acc, seen)
  | c :: cs, acc, seen =>
    if isdigit c then read_digits cs (acc * 10 + (c.toNat - 48)) true else (acc, seen)

/-- What a call of `strtol` leaves behind: the value returned and whether `errno` was
set to `ERANGE`. (`endptr` is written by the call but never read by `main`.) -/
structure StrtolResult where
  value : Int
  erange : Bool
deriving DecidableEq

/-- `strtol(s, &endptr, 10)` as specified by the C standard: skip white space, take an
optional sign, convert the longest run of decimal digits; with no digit at all the
result is 0 and `errno` is left alone; a value outside `long` is clamped to
`LONG_MIN`/`LONG_MAX` and `errno` becomes `ERANGE`. -/
def strtol (abi : ABI) (s : String) : StrtolResult :=
  let body := skip_space s.toList
  let neg : Bool := match body with
    | c :: _ => decide (c.toNat = 45)
    | [] => false
  let digits : List Char := match body with
    | c :: cs => if c.toNat = 45 ∨ c.toNat = 43 then cs else c :: cs
    | [] => []
  let r := read_digits digits 0 false
  if r.2 = false then ⟨0, false⟩
  else
    let v : Int := if neg then -(r.1 : Int) else (r.1 : Int)
    if v > LONG_MAX abi then ⟨LONG_MAX abi, true⟩
    else if v < LONG_MIN abi then ⟨LONG_MIN abi, true⟩
    else ⟨v, false⟩

/-! ## Register window (`I2CRegisterSet`) and the `DEL` bit layout -/

/-- The eight 32-bit registers of the BSC controller, in address order. -/
structure I2CRegisterSet where
  C : Nat
  S : Nat
  DLEN : Nat
  A : Nat
  FIFO : Nat
  DIV : Nat
  DEL : Nat
  CLKT : Nat
deriving DecidableEq

/-- Offset of BSC1 inside the peripheral block. -/
def I2C1_OFFSET : Nat := 0x00804000

/-- Line 177: `(i2c_1->DEL >> 16) & 0xFFFF`. -/
def extract_fedl (del : Nat) : Nat := (del >>> 16) &&& 0xFFFF

/-- Line 178: `i2c_1->DEL & 0xFFFF`. -/
def extract_redl (del : Nat) : Nat := del &&& 0xFFFF

/-- Line 218: `(uint32_t)(((uint32_t)FEDL << 16) | REDL)`. -/
def pack_del (fedl redl : Nat) : Nat := ((fedl <<< 16) ||| redl) % 2 ^ 32

/-- The registers `main` assigns to. -/
inductive Reg where
  | DIV
  | CLKT
  | DEL
deriving DecidableEq

/-- One store into the mapped window. -/
structure Write where
  reg : Reg
  value : Nat
deriving DecidableEq

/-- Effect of one store on the window. -/
def I2CRegisterSet.store (r : I2CRegisterSet) (w : Write) : I2CRegisterSet :=
  match w.reg with
  | .DIV => { r with DIV := w.value }
  | .CLKT => { r with CLKT := w.value }
  | .DEL => { r with DEL := w.value }

/-! ## Outside world and observable behaviour -/

/-- Result of a system call that either succeeds or fails leaving a value in `errno`. -/
inductive Sys where
  | ok
  | fails (errno : Int)
deriving DecidableEq

/-- What reading `/sys/kernel/debug/clk/vpu/clk_rate` does. -/
inductive ClockSource where
  | cannot_open (errno : Int)
  | cannot_read
  | cannot_close (hz : Nat) (errno : Int)
  | rate (hz : Nat)
deriving DecidableEq

/-- Everything `main` obtains from outside the process. -/
structure Env where
  errno : Int
  model_type : Nat
  processor_id : Nat
  peripheral_address : Nat
  peripheral_size : Nat
  sdram_address : Nat
  devmem : Sys
  mmap : Sys
  regs : I2CRegisterSet
  clk : ClockSource

/-- The four numeric command-line arguments. -/
inductive Arg where
  | CDIV
  | TOUT
  | FEDL
  | REDL
deriving DecidableEq

/-- Why the clock rate could not be obtained. -/
inductive ClockFailure where
  | open_failed
  | read_failed
  | close_failed
deriving DecidableEq

/-- Lines printed by the program, with the numbers they carry. -/
inductive Out where
  | usage
  | perror_parse (which : Arg) (errno : Int)
  | cdiv_out_of_bounds
  | tout_out_of_bounds
  | delay_out_of_bounds (which : Arg) (shown : Int) (bound : Int)
  | host_info (model processor base size sdram : Nat)
  | perror_devmem (errno : Int)
  | controller_base (addr : Nat)
  | clock_unavailable (why : ClockFailure)
  | core_clock_MHz (v : Nat)
  | i2c_clock_KHz (v : Nat)
  | perror_mmap (errno : Int)
  | registers (C S DLEN A FIFO DIV DEL FEDL REDL CLKT cdiv tout : Nat)
  | suggested (fedl redl : Nat) (limit : Int)
  | updating_delays (fedl fedl_us redl redl_us : Nat)
  | timing_updated (cdiv tout : Nat)
  | stretch_timeout (us : Nat)
deriving DecidableEq

/-- Abnormal terminations that are not an exit status. -/
inductive Fault where
  | div_by_zero
  | segv
deriving DecidableEq

/-- How the run ends: the value returned from `main` (or passed to `exit`), or a fault. -/
inductive Outcome where
  | exit (code : Int)
  | fault (f : Fault)
deriving DecidableEq

/-- Observable result of one invocation. -/
structure Result where
  outcome : Outcome
  writes : List Write
  regs : I2CRegisterSet
  out : List Out
deriving DecidableEq

/-! ## `print_core_clock_speed` (lines 46-67) -/

/-- Return value (`none` when the division by `cdiv` is a division by zero), lines
printed, and `errno` afterwards. -/
structure ClockResult where
  ret : Option Nat
  out : List Out
  errno : Int
deriving DecidableEq

/-- `uint32_t print_core_clock_speed(uint16_t cdiv)`; `errno` is the value at entry. -/
def print_core_clock_speed (clk : ClockSource) (cdiv : Nat) (errno : Int) : ClockResult :=
  match clk with
  | .cannot_open e => ⟨some 0, [.clock_unavailable .open_failed], e⟩
  | .cannot_read => ⟨some 0, [.clock_unavailable .read_failed], errno⟩
  | .cannot_close _ e => ⟨some 0, [.clock_unavailable .close_failed], e⟩
  | .rate hz =>
    let core_clk_rate := hz % 2 ^ 32
    if cdiv = 0 then ⟨none, [.core_clock_MHz (core_clk_rate / 1000000)], errno⟩
    else
      ⟨some (core_clk_rate / cdiv),
        [.core_clock_MHz (core_clk_rate / 1000000), .i2c_clock_KHz (core_clk_rate / cdiv / 1000)],
        errno⟩

/-! ## `main` (lines 69-227) -/

/-- Locals of `main` that survive argument parsing (lines 78-83), plus `errno`. -/
structure Args where
  cdiv : Nat
  tout : Nat
  set_new : Bool
  cdiv_l : Int
  fedl_l : Int
  redl_l : Int
  errno : Int
deriving DecidableEq

/-- Initial values of the locals (lines 78-83). -/
def Args.init (errno : Int) : Args :=
  { cdiv := 0, tout := 0, set_new := false, cdiv_l := -1, fedl_l := -1, redl_l := -1,
    errno := errno }

/-- Locals of `main` once `cdiv tout` (and possibly the delays) passed validation: the
divider rounded down to even, and the `long` values kept for later tests. -/
def Args.accepted (cdiv tout : Nat) (fedl_l redl_l errno : Int) : Args :=
  { cdiv := 2 * (cdiv / 2), tout := tout, set_new := true, cdiv_l := cdiv, fedl_l := fedl_l,
    redl_l := redl_l, errno := errno }

/-- Lines 84-109: the `(argc == 3) || (argc == 5)` block. An early `return` is the
`error` case, carrying the value returned and the lines printed. -/
def parse_cdiv_tout (abi : ABI) (a1 a2 : String) (errno : Int) : Except (Int × List Out) Args :=
  let c := strtol abi a1
  let errno1 := if c.erange then ERANGE else errno
  let cdiv_l := c.value
  if cdiv_l = LONG_MIN abi ∨ cdiv_l = LONG_MAX abi then
    .error (errno1, [.perror_parse .CDIV errno1])
  else if cdiv_l ≤ 0 ∨ cdiv_l > 0xFFFF then
    .error (ERANGE, [.cdiv_out_of_bounds])
  else
    let cdiv := (cdiv_l.toNat &&& 0xFFFE) % 2 ^ 16
    let t := strtol abi a2
    let errno2 := if t.erange then ERANGE else errno1
    let tout_l := t.value
    if tout_l = LONG_MIN abi ∨ tout_l = LONG_MAX abi then
      .error (errno2, [.perror_parse .TOUT errno2])
    else if tout_l < 0 ∨ tout_l > 0xFFFF then
      .error (ERANGE, [.tout_out_of_bounds])
    else
      let tout := (tout_l.toNat &&& 0xFFFF) % 2 ^ 16
      .ok { cdiv := cdiv, tout := tout, set_new := true, cdiv_l := cdiv_l, fedl_l := -1,
            redl_l := -1, errno := errno2 }

/-- Lines 111-133: the `argc == 5` block, entered with the locals left by lines 84-109
(so `0 < cdiv_l`, where C's truncating `/ 2` is Lean's). The REDL message prints
`fedl_l`, as the source does. -/
def parse_delays (abi : ABI) (a3 a4 : String) (a : Args) : Except (Int × List Out) Args :=
  let f := strtol abi a3
  let errno1 := if f.erange then ERANGE else a.errno
  if f.value = LONG_MIN abi ∨ f.value = LONG_MAX abi then
    .error (errno1, [.perror_parse .FEDL errno1])
  else if f.value ≥ a.cdiv_l / 2 then
    .error (ERANGE, [.delay_out_of_bounds .FEDL f.value (a.cdiv_l / 2)])
  else
    let fedl_l := if f.value ≤ 0 then -f.value else f.value
    let r := strtol abi a4
    let errno2 := if r.erange then ERANGE else errno1
    if r.value = LONG_MIN abi ∨ r.value = LONG_MAX abi then
      .error (errno2, [.perror_parse .REDL errno2])
    else if r.value ≥ a.cdiv_l / 2 then
      .error (ERANGE, [.delay_out_of_bounds .REDL fedl_l (a.cdiv_l / 2)])
    else
      let redl_l := if r.value ≤ 0 then -r.value else r.value
      .ok { a with fedl_l := fedl_l, redl_l := redl_l, errno := errno2 }

/-- Lines 70-133: argument count check and argument parsing. -/
def parse_args (abi : ABI) (argv : List String) (errno : Int) : Except (Int × List Out) Args :=
  match argv with
  | [_] => .ok (Args.init errno)
  | [_, a1, a2] => parse_cdiv_tout abi a1 a2 errno
  | [_, a1, a2, a3, a4] =>
    match parse_cdiv_tout abi a1 a2 errno with
    | .error e => .error e
    | .ok a => parse_delays abi a3 a4 a
  | _ => .error (-1, [.usage])

/-- Line 165: the argument `cdiv_l > 0 && cdiv ? cdiv : i2c_1->DIV`, narrowed to the
`uint16_t` parameter of `print_core_clock_speed`. -/
def clock_divider (a : Args) (regs : I2CRegisterSet) : Nat :=
  if 0 < a.cdiv_l ∧ a.cdiv ≠ 0 then a.cdiv % 2 ^ 16 else regs.DIV % 2 ^ 16

/-- Line 200: `max(cdiv / 16, 1u)`, with `max(a,b)` being `((a) > (b)) ? (a) : (b)`. -/
def suggested_fedl (cdiv : Nat) : Nat := if cdiv / 16 > 1 then cdiv / 16 else 1

/-- Line 201: `max(cdiv / 4, 1u)`. -/
def suggested_redl (cdiv : Nat) : Nat := if cdiv / 4 > 1 then cdiv / 4 else 1

/-- Lines 200 and 205-207: `FEDL` when line 213 is reached (a `long` stored into a
`uint16_t`). -/
def final_fedl (a : Args) : Nat :=
  if a.fedl_l ≥ 0 then (a.fedl_l % 2 ^ 16).toNat else suggested_fedl a.cdiv % 2 ^ 16

/-- Lines 201 and 209-211: `REDL` when line 213 is reached. -/
def final_redl (a : Args) : Nat :=
  if a.redl_l ≥ 0 then (a.redl_l % 2 ^ 16).toNat else suggested_redl a.cdiv % 2 ^ 16

/-- The scaling `x * 1000000 / core_clk_rate` of lines 214 and 222 for a non-zero
divisor: the product of the promoted `uint16_t` and the `int` constant is taken in 32
bits (two's-complement wrap-around where it exceeds `int`), then divided as unsigned. -/
def microseconds (x core_clk_rate : Nat) : Nat := x * 1000000 % 2 ^ 32 / core_clk_rate

/-- Lines 135-227: host queries, mapping, register dump and the optional update. -/
def main_body (a : Args) (env : Env) : Result :=
  let out0 : List Out :=
    [.host_info env.model_type env.processor_id env.peripheral_address env.peripheral_size
      env.sdram_address]
  match env.devmem with
  | .fails e => ⟨.exit e, [], env.regs, out0 ++ [.perror_devmem e]⟩
  | .ok =>
    let offset := (env.peripheral_address + I2C1_OFFSET) % 2 ^ 32
    let out1 := out0 ++ [.controller_base offset]
    let errno1 : Int := match env.mmap with
      | .ok => a.errno
      | .fails e => e
    if ¬ (0 < a.cdiv_l ∧ a.cdiv ≠ 0) ∧ env.mmap ≠ .ok then ⟨.fault .segv, [], env.regs, out1⟩
    else
      let clk := print_core_clock_speed env.clk (clock_divider a env.regs) errno1
      match clk.ret with
      | none => ⟨.fault .div_by_zero, [], env.regs, out1 ++ clk.out⟩
      | some core_clk_rate =>
        match env.mmap with
        | .fails _ => ⟨.exit clk.errno, [], env.regs, out1 ++ clk.out ++ [.perror_mmap clk.errno]⟩
        | .ok =>
          let r := env.regs
          let out2 := out1 ++ clk.out ++
            [.registers r.C r.S r.DLEN r.A r.FIFO r.DIV r.DEL (extract_fedl r.DEL)
              (extract_redl r.DEL) r.CLKT (r.DIV &&& 0xFFFF) (r.CLKT &&& 0xFFFF)]
          if a.set_new = false then ⟨.exit 0, [], r, out2⟩
          else
            let out3 := out2 ++
              [.suggested (suggested_fedl a.cdiv % 2 ^ 16) (suggested_redl a.cdiv % 2 ^ 16)
                (a.cdiv_l / 2 - 1)]
            let FEDL := final_fedl a
            let REDL := final_redl a
            if core_clk_rate = 0 then ⟨.fault .div_by_zero, [], r, out3⟩
            else
              let out4 := out3 ++
                [.updating_delays FEDL (microseconds FEDL core_clk_rate)
                  REDL (microseconds REDL core_clk_rate)]
              let w1 : Write := ⟨.DIV, a.cdiv &&& 0x0000FFFF⟩
              let w2 : Write := ⟨.CLKT, a.tout &&& 0x0000FFFF⟩
              let w3 : Write := ⟨.DEL, pack_del FEDL REDL⟩
              let out5 := out4 ++ [.timing_updated a.cdiv a.tout,
                .stretch_timeout (microseconds a.tout core_clk_rate)]
              ⟨.exit 0, [w1, w2, w3], ((r.store w1).store w2).store w3, out5⟩

/-- `int main(int argc, char** argv)`. -/
def main (abi : ABI) (argv : List String) (env : Env) : Result :=
  match parse_args abi argv env.errno with
  | .error (code, out) => ⟨.exit code, [], env.regs, out⟩
  | .ok a => main_body a env

/-! ## Decimal rendering of the arguments -/

/-- The character of a decimal digit. -/
def digit_char : Nat → Char
  | 0 => '0'
  | 1 => '1'
  | 2 => '2'
  | 3 => '3'
  | 4 => '4'
  | 5 => '5'
  | 6 => '6'
  | 7 => '7'
  | 8 => '8'
  | _ => '9'

/-- Decimal digits of `n`, most significant first; `fuel` bounds the number of digits. -/
def decimal_digits : Nat → Nat → List Char
  | 0, _ => []
  | fuel + 1, n =>
    if n < 10 then [digit_char n] else decimal_digits fuel (n / 10) ++ [digit_char (n % 10)]

/-- The usual decimal numeral of a natural number, as typed on the command line. -/
def decimal (n : Nat) : String := String.mk (decimal_digits (n + 1) n)

/-- The usual decimal numeral of an integer: a minus sign in front of a negative one. -/
def decimal_int : Int → String
  | .ofNat n => decimal n
  | .negSucc n => String.mk ('-' :: decimal_digits (n + 2) (n + 1))

/-- Value of a digit string read left to right from accumulator `acc`. -/
def digits_value (l : List Char) (acc : Nat) : Nat :=
  l.foldl (fun a c => a * 10 + (c.toNat - 48)) acc

/-- Clamping of an exact value to the range of `long`, as `strtol` reports it. -/
def strtol_clamp (abi : ABI) (v : Int) : StrtolResult :=
  if v > LONG_MAX abi then ⟨LONG_MAX abi, true⟩
  else if v < LONG_MIN abi then ⟨LONG_MIN abi, true⟩
  else ⟨v, false⟩

/-! ## Machines used in the concrete runs -/

/-- A machine on which everything outside the arguments works: `errno` is 0 at
startup, `/dev/mem` opens, the mapping succeeds, the core clock reads `hz`. -/
def Env.good (regs : I2CRegisterSet) (hz : Nat) : Env :=
  { errno := 0, model_type := 0x11, processor_id := 3, peripheral_address := 0xFE000000,
    peripheral_size := 0x01800000, sdram_address := 0xC0000000, devmem := .ok, mmap := .ok,
    regs := regs, clk := .rate hz }

/-- Register contents after a reset of the controller (`DIV` 1500, `DEL` 0x300030,
`CLKT` 0x40, status 0x50). -/
def reset_regs : I2CRegisterSet :=
  { C := 0, S := 0x50, DLEN := 0, A := 0, FIFO := 0, DIV := 0x5DC, DEL := 0x300030, CLKT := 0x40 }

/-- The machine of `Env.good` with an unreadable core clock file (`fopen` fails with
`EACCES`). -/
def Env.no_clock (regs : I2CRegisterSet) : Env :=
  { Env.good regs 0 with clk := .cannot_open 13 }

/-! ## Facts about `strtol` on decimal numerals -/

theorem digit_char_toNat (d : Nat) (h : d < 10) : (digit_char d).toNat = 48 + d := by
  interval_cases d <;> rfl

theorem isdigit_digit_char (d : Nat) (h : d < 10) : isdigit (digit_char d) = true := by
  interval_cases d <;> rfl

theorem isspace_digit_char (d : Nat) (h : d < 10) : isspace (digit_char d) = false := by
  interval_cases d <;> rfl

theorem read_digits_append (l rest : List Char) (hl : ∀ c ∈ l, isdigit c = true) :
    ∀ (acc : Nat) (seen : Bool),
      read_digits (l ++ rest) acc seen
        = read_digits rest (digits_value l acc) (seen || !l.isEmpty) := by
  induction l with
  | nil => intro acc seen; simp [digits_value]
  | cons c cs ih =>
    intro acc seen
    have hc : isdigit c = true := hl c (List.mem_cons_self _ _)
    have hcs : ∀ x ∈ cs, isdigit x = true := fun x hx => hl x (List.mem_cons_of_mem _ hx)
    simp [read_digits, hc, ih hcs, digits_value]

theorem decimal_digits_spec (fuel : Nat) :
    ∀ n : Nat, n < fuel →
      (∀ c ∈ decimal_digits fuel n, isdigit c = true) ∧
      (∀ acc, digits_value (decimal_digits fuel n) acc
          = acc * 10 ^ (decimal_digits fuel n).length + n) ∧
      (∃ d rest, d < 10 ∧ decimal_digits fuel n = digit_char d :: rest) := by
  induction fuel with
  | zero => intro n h; omega
  | succ k ih =>
    intro n hn
    by_cases h10 : n < 10
    · simp only [decimal_digits, h10, if_true]
      refine ⟨?_, ?_, ⟨n, [], h10, rfl⟩⟩
      · intro c hc
        simp at hc
        subst hc
        exact isdigit_digit_char n h10
      · intro acc
        simp [digits_value, digit_char_toNat n h10]
    · simp only [decimal_digits, h10, if_false]
      have hk : n / 10 < k := by omega
      obtain ⟨hd, hv, d, rest, hd10, hhead⟩ := ih (n / 10) hk
      have hm : n % 10 < 10 := Nat.mod_lt _ (by norm_num)
      refine ⟨?_, ?_, ⟨d, rest ++ [digit_char (n % 10)], hd10, by simp [hhead]⟩⟩
      · intro c hc
        rcases List.mem_append.mp hc with h | h
        · exact hd c h
        · simp at h
          subst h
          exact isdigit_digit_char _ hm
      · intro acc
        have e := hv acc
        simp only [digits_value] at e ⊢
        rw [List.foldl_append, e]
        simp [digit_char_toNat _ hm, pow_succ]
        ring_nf
        omega

theorem read_digits_decimal (fuel n : Nat) (h : n < fuel) :
    read_digits (decimal_digits fuel n) 0 false = (n, true) := by
  obtain ⟨hd, hv, d, rest, _, hhead⟩ := decimal_digits_spec fuel n h
  have e := read_digits_append (decimal_digits fuel n) [] hd 0 false
  rw [List.append_nil] at e
  rw [e, hv 0]
  simp [read_digits, hhead]

theorem strtol_decimal_nat (abi : ABI) (n : Nat) :
    strtol abi (decimal n) = strtol_clamp abi (n : Int) := by
  obtain ⟨_, _, d, rest, hd10, hhead⟩ := decimal_digits_spec (n + 1) n (Nat.lt_succ_self n)
  have hr := read_digits_decimal (n + 1) n (Nat.lt_succ_self n)
  have hsp := isspace_digit_char d hd10
  have hnat := digit_char_toNat d hd10
  have h45 : ¬ (digit_char d).toNat = 45 := by omega
  have h43 : ¬ (digit_char d).toNat = 43 := by omega
  rw [hhead] at hr
  simp [strtol, decimal, hhead, skip_space, hsp, h45, h43, hr, strtol_clamp]

theorem strtol_decimal_int (abi : ABI) (v : Int) :
    strtol abi (decimal_int v) = strtol_clamp abi v := by
  cases v with
  | ofNat n => exact strtol_decimal_nat abi n
  | negSucc n =>
    have hr := read_digits_decimal (n + 2) (n + 1) (Nat.lt_succ_self _)
    have hsp : isspace '-' = false := by rfl
    have h45 : ('-' : Char).toNat = 45 := by rfl
    simp [strtol, decimal_int, skip_space, hsp, h45, hr, strtol_clamp, Int.negSucc_eq]

theorem LONG_MAX_ge (abi : ABI) : 2147483647 ≤ LONG_MAX abi := by
  cases abi <;> simp [LONG_MAX]

theorem LONG_MIN_le (abi : ABI) : LONG_MIN abi ≤ -2147483648 := by
  have := LONG_MAX_ge abi
  unfold LONG_MIN
  omega

/-- A numeral of a value strictly inside the range of `long` is read back exactly and
is neither of the two sentinels `main` tests for. -/
theorem strtol_decimal_small (abi : ABI) (v : Int) (hlo : -2147483648 < v) (hhi : v < 2147483647) :
    strtol abi (decimal_int v) = ⟨v, false⟩ ∧ v ≠ LONG_MIN abi ∧ v ≠ LONG_MAX abi := by
  have h1 := LONG_MAX_ge abi
  have h2 := LONG_MIN_le abi
  refine ⟨?_, by omega, by omega⟩
  rw [strtol_decimal_int, strtol_clamp]
  have a : ¬ v > LONG_MAX abi := by omega
  have b : ¬ v < LONG_MIN abi := by omega
  simp [a, b]

/-! ## Bit-level facts -/

theorem land_ffff (n : Nat) : n &&& 0xFFFF = n % 2 ^ 16 := by
  have h := Nat.and_pow_two_sub_one_eq_mod n 16
  simpa using h

theorem land_fffe (n : Nat) (h : n < 65536) : n &&& 0xFFFE = 2 * (n / 2) := by
  apply Nat.eq_of_testBit_eq
  intro i
  rw [Nat.testBit_and]
  have e : (0xFFFE : Nat) = 2 * (2 ^ 15 - 1) := by norm_num
  rw [e]
  cases i with
  | zero => simp [Nat.testBit_zero]
  | succ j =>
    simp only [Nat.testBit_succ]
    have h2 : 2 * (2 ^ 15 - 1) / 2 = 2 ^ 15 - 1 := by norm_num
    have h3 : 2 * (n / 2) / 2 = n / 2 := by omega
    rw [h2, h3, Nat.testBit_two_pow_sub_one]
    by_cases hj : j < 15
    · simp [hj]
    · simp [hj]
      apply Nat.testBit_lt_two_pow
      have : n / 2 < 2 ^ 15 := by omega
      exact lt_of_lt_of_le this (Nat.pow_le_pow_right (by norm_num) (by omega))

theorem pack_del_eq (f r : Nat) (hf : f < 2 ^ 16) (hr : r < 2 ^ 16) :
    pack_del f r = f * 65536 + r := by
  unfold pack_del
  rw [Nat.shiftLeft_eq, Nat.mul_comm, ← Nat.mul_add_lt_is_or hr]
  omega

theorem extract_fedl_eq (del : Nat) : extract_fedl del = del / 65536 % 65536 := by
  unfold extract_fedl
  rw [land_ffff, Nat.shiftRight_eq_div_pow]
  norm_num

theorem extract_redl_eq (del : Nat) : extract_redl del = del % 65536 := by
  unfold extract_redl
  rw [land_ffff]
  norm_num

/-! ## Stepping through `main` -/

theorem parse_cdiv_tout_ok (abi : ABI) (a1 a2 : String) (errno : Int) (cdiv tout : Nat)
    (h1 : strtol abi a1 = ⟨cdiv, false⟩) (h2 : strtol abi a2 = ⟨tout, false⟩)
    (hc0 : 0 < cdiv) (hc : cdiv ≤ 65535) (ht : tout ≤ 65535) :
    parse_cdiv_tout abi a1 a2 errno = .ok (Args.accepted cdiv tout (-1) (-1) errno) := by
  have hM := LONG_MAX_ge abi
  have hm := LONG_MIN_le abi
  have c1 : ¬ ((cdiv : Int) = LONG_MIN abi ∨ (cdiv : Int) = LONG_MAX abi) := by omega
  have c2 : ¬ ((cdiv : Int) ≤ 0 ∨ (cdiv : Int) > 0xFFFF) := by omega
  have t1 : ¬ ((tout : Int) = LONG_MIN abi ∨ (tout : Int) = LONG_MAX abi) := by omega
  have t2 : ¬ ((tout : Int) < 0 ∨ (tout : Int) > 0xFFFF) := by omega
  have e1 : (cdiv &&& 0xFFFE) % 2 ^ 16 = 2 * (cdiv / 2) := by
    rw [land_fffe cdiv (by omega)]
    omega
  have e2 : (tout &&& 0xFFFF) % 2 ^ 16 = tout := by
    rw [land_ffff]
    omega
  simp only [parse_cdiv_tout, h1, h2, c1, c2, t1, t2, if_false, Int.toNat_ofNat, e1, e2]
  rfl

theorem main_body_update (a : Args) (env : Env) (hz : Nat)
    (hset : a.set_new = true) (hopen : env.devmem = .ok) (hmap : env.mmap = .ok)
    (hclk : env.clk = .rate hz) (hnz : hz % 2 ^ 32 / clock_divider a env.regs ≠ 0) :
    (main_body a env).outcome = .exit 0 ∧
    (main_body a env).writes
      = [⟨.DIV, a.cdiv &&& 0xFFFF⟩, ⟨.CLKT, a.tout &&& 0xFFFF⟩,
         ⟨.DEL, pack_del (final_fedl a) (final_redl a)⟩] ∧
    (main_body a env).regs
      = { env.regs with DIV := a.cdiv &&& 0xFFFF, CLKT := a.tout &&& 0xFFFF,
                        DEL := pack_del (final_fedl a) (final_redl a) } := by
  have hd : ¬ clock_divider a env.regs = 0 := by
    intro h0
    rw [h0] at hnz
    simp at hnz
  have hnz2 : ¬ hz % 4294967296 / clock_divider a env.regs = 0 := by simpa using hnz
  simp [main_body, hopen, hmap, hclk, hset, print_core_clock_speed, hd, hnz2,
    I2CRegisterSet.store]

theorem strtol_decimal_u16 (abi : ABI) (n : Nat) (h : n ≤ 65535) :
    strtol abi (decimal n) = ⟨(n : Int), false⟩ :=
  (strtol_decimal_small abi (n : Int) (by omega) (by omega)).1

theorem main_three_args (abi : ABI) (env : Env) (prog a1 a2 : String) (cdiv tout : Nat)
    (h1 : strtol abi a1 = ⟨cdiv, false⟩) (h2 : strtol abi a2 = ⟨tout, false⟩)
    (hc0 : 0 < cdiv) (hc : cdiv ≤ 65535) (ht : tout ≤ 65535) :
    main abi [prog, a1, a2] env = main_body (Args.accepted cdiv tout (-1) (-1) env.errno) env := by
  simp only [main, parse_args, parse_cdiv_tout_ok abi a1 a2 env.errno cdiv tout h1 h2 hc0 hc ht]

theorem shift_or_eq (f r : Nat) (hr : r < 2 ^ 16) : (f <<< 16) ||| r = f * 65536 + r := by
  rw [Nat.shiftLeft_eq, Nat.mul_comm, ← Nat.mul_add_lt_is_or hr]

/-- C1: for every cdiv in (0, 65535] and tout in [0, 65535], the invocation
`rpi-i2c cdiv tout` on a machine where `/dev/mem` opens, the window maps and the core
clock is readable with a non-zero derived I2C clock returns 0 and leaves the window as
it was except for `DIV` (cdiv rounded down to even: even and at most 1 below cdiv),
`CLKT` (tout) and `DEL` ((max(DIV/16,1) << 16) | max(DIV/4,1)), written in that order. -/
theorem C1_write_with_default_delays (abi : ABI) (env : Env) (prog : String) (cdiv tout hz : Nat)
    (hc0 : 0 < cdiv) (hc : cdiv ≤ 65535) (ht : tout ≤ 65535)
    (hopen : env.devmem = .ok) (hmap : env.mmap = .ok) (hclk : env.clk = .rate hz)
    (hnz : hz % 2 ^ 32 / (if 2 ≤ cdiv then 2 * (cdiv / 2) else env.regs.DIV % 2 ^ 16) ≠ 0) :
    (main abi [prog, decimal cdiv, decimal tout] env).outcome = .exit 0 ∧
    (main abi [prog, decimal cdiv, decimal tout] env).regs
      = { env.regs with
            DIV := 2 * (cdiv / 2),
            CLKT := tout,
            DEL := ((max (2 * (cdiv / 2) / 16) 1) <<< 16) ||| (max (2 * (cdiv / 2) / 4) 1) } ∧
    (main abi [prog, decimal cdiv, decimal tout] env).writes
      = [⟨.DIV, 2 * (cdiv / 2)⟩, ⟨.CLKT, tout⟩,
         ⟨.DEL, ((max (2 * (cdiv / 2) / 16) 1) <<< 16) ||| (max (2 * (cdiv / 2) / 4) 1)⟩] ∧
    2 * (cdiv / 2) % 2 = 0 ∧ 2 * (cdiv / 2) ≤ cdiv ∧ cdiv ≤ 2 * (cdiv / 2) + 1 := by
  have hm := main_three_args abi env prog (decimal cdiv) (decimal tout) cdiv tout
    (strtol_decimal_u16 abi cdiv hc) (strtol_decimal_u16 abi tout ht) hc0 hc ht
  have hdiv : clock_divider (Args.accepted cdiv tout (-1) (-1) env.errno) env.regs
      = (if 2 ≤ cdiv then 2 * (cdiv / 2) else env.regs.DIV % 2 ^ 16) := by
    simp only [clock_divider, Args.accepted]
    by_cases h2 : 2 ≤ cdiv
    · have : (0 : Int) < (cdiv : Int) ∧ 2 * (cdiv / 2) ≠ 0 := ⟨by omega, by omega⟩
      rw [if_pos this, if_pos h2]
      omega
    · have : ¬ ((0 : Int) < (cdiv : Int) ∧ 2 * (cdiv / 2) ≠ 0) := by
        intro h
        omega
      rw [if_neg this, if_neg h2]
  have hb := main_body_update _ env hz rfl hopen hmap hclk (by rw [hdiv]; exact hnz)
  have e1 : (2 * (cdiv / 2)) &&& 0xFFFF = 2 * (cdiv / 2) := by
    rw [land_ffff]
    omega
  have e2 : tout &&& 0xFFFF = tout := by
    rw [land_ffff]
    omega
  have ef : final_fedl (Args.accepted cdiv tout (-1) (-1) env.errno)
      = max (2 * (cdiv / 2) / 16) 1 := by
    simp only [final_fedl, suggested_fedl, Args.accepted]
    rw [if_neg (by decide)]
    split <;> omega
  have er : final_redl (Args.accepted cdiv tout (-1) (-1) env.errno)
      = max (2 * (cdiv / 2) / 4) 1 := by
    simp only [final_redl, suggested_redl, Args.accepted]
    rw [if_neg (by decide)]
    split <;> omega
  have ep : pack_del (max (2 * (cdiv / 2) / 16) 1) (max (2 * (cdiv / 2) / 4) 1)
      = ((max (2 * (cdiv / 2) / 16) 1) <<< 16) ||| (max (2 * (cdiv / 2) / 4) 1) := by
    rw [pack_del_eq _ _ (by omega) (by omega), shift_or_eq _ _ (by omega)]
  rw [hm]
  simp only [Args.accepted] at hb e1 e2 ef er
  simp only [Args.accepted]
  rw [e1, e2, ef, er, ep] at hb
  exact ⟨hb.1, hb.2.2, hb.2.1, by omega, by omega, by omega⟩

/-- Instances of C1 on the reset register contents with a 500 MHz core clock:
`100 50` writes DIV 100, CLKT 50, DEL (6 << 16) | 25, and `1500 50` writes the delays
FEDL 93 and REDL 375. -/
theorem C1_write_with_default_delays_witness :
    ((main .lp64 ["rpi-i2c", "100", "50"] (Env.good reset_regs 500000000)).outcome = .exit 0 ∧
      (main .lp64 ["rpi-i2c", "100", "50"] (Env.good reset_regs 500000000)).regs
        = { reset_regs with DIV := 100, CLKT := 50, DEL := (6 <<< 16) ||| 25 }) ∧
    ((main .lp64 ["rpi-i2c", "1500", "50"] (Env.good reset_regs 500000000)).regs
        = { reset_regs with DIV := 1500, CLKT := 50, DEL := (93 <<< 16) ||| 375 }) := by
  have h1 := C1_write_with_default_delays .lp64 (Env.good reset_regs 500000000) "rpi-i2c" 100 50
    500000000 (by decide) (by decide) (by decide) rfl rfl rfl (by decide)
  have h2 := C1_write_with_default_delays .lp64 (Env.good reset_regs 500000000) "rpi-i2c" 1500 50
    500000000 (by decide) (by decide) (by decide) rfl rfl rfl (by decide)
  exact ⟨⟨h1.1, h1.2.1⟩, h2.2.1⟩

/-- Without `set_new` the body of `main` stores nothing, however it ends. -/
theorem main_body_read_only (a : Args) (env : Env) (hset : a.set_new = false) :
    (main_body a env).writes = [] ∧ (main_body a env).regs = env.regs := by
  unfold main_body
  simp only [hset, if_true]
  repeat' split
  all_goals simp

/-- C5: for every initial register window, every core-clock reading and every other
condition of the machine, the invocation without arguments stores into no register, and
the eight registers C, S, DLEN, A, FIFO, DIV, DEL, CLKT hold afterwards the values they
held before. -/
theorem C5_read_only_leaves_registers (abi : ABI) (env : Env) (prog : String) :
    (main abi [prog] env).writes = [] ∧
    (main abi [prog] env).regs = env.regs ∧
    (main abi [prog] env).regs.C = env.regs.C ∧
    (main abi [prog] env).regs.S = env.regs.S ∧
    (main abi [prog] env).regs.DLEN = env.regs.DLEN ∧
    (main abi [prog] env).regs.A = env.regs.A ∧
    (main abi [prog] env).regs.FIFO = env.regs.FIFO ∧
    (main abi [prog] env).regs.DIV = env.regs.DIV ∧
    (main abi [prog] env).regs.DEL = env.regs.DEL ∧
    (main abi [prog] env).regs.CLKT = env.regs.CLKT := by
  have h : main abi [prog] env = main_body (Args.init env.errno) env := rfl
  have hb := main_body_read_only (Args.init env.errno) env rfl
  rw [h]
  refine ⟨hb.1, hb.2, ?_, ?_, ?_, ?_, ?_, ?_, ?_, ?_⟩ <;> rw [hb.2]

/-- C10: round trip of the `DEL` layout of `main`. For every 32-bit `del`, packing the
fields the read path extracts (lines 177-178) the way the write path does (line 218)
gives `del` back; and for every pair of 16-bit values, the fields extracted from the
packed word are that pair. -/
theorem C10_del_round_trip (del fedl redl : Nat)
    (hdel : del < 2 ^ 32) (hf : fedl < 2 ^ 16) (hr : redl < 2 ^ 16) :
    pack_del (extract_fedl del) (extract_redl del) = del ∧
    extract_fedl (pack_del fedl redl) = fedl ∧
    extract_redl (pack_del fedl redl) = redl := by
  refine ⟨?_, ?_, ?_⟩
  · rw [extract_fedl_eq, extract_redl_eq, pack_del_eq _ _ (by omega) (by omega)]
    omega
  · rw [pack_del_eq _ _ hf hr, extract_fedl_eq]
    omega
  · rw [pack_del_eq _ _ hf hr, extract_redl_eq]
    omega

/-- Instance of C10 at the reset value 0x00300030 of `DEL` and at the pair (6, 25). -/
theorem C10_del_round_trip_witness :
    pack_del (extract_fedl 0x300030) (extract_redl 0x300030) = 0x300030 ∧
    extract_fedl (pack_del 6 25) = 6 ∧
    extract_redl (pack_del 6 25) = 25 :=
  C10_del_round_trip 0x300030 6 25 (by decide) (by decide) (by decide)

/-- When the body of `main` stores anything, it went through the whole update block:
the clock value it divides by is not zero, the three stores are those of lines 216-218,
and lines 213-214 and 221-222 printed the scaled delays and timeout. -/
theorem main_body_written (a : Args) (env : Env) (hw : (main_body a env).writes ≠ []) :
    ∃ core : Nat, core ≠ 0 ∧
      (print_core_clock_speed env.clk (clock_divider a env.regs) a.errno).ret = some core ∧
      (main_body a env).outcome = .exit 0 ∧
      (main_body a env).regs
        = { env.regs with DIV := a.cdiv &&& 0xFFFF, CLKT := a.tout &&& 0xFFFF,
                          DEL := pack_del (final_fedl a) (final_redl a) } ∧
      (main_body a env).out
        = [Out.host_info env.model_type env.processor_id env.peripheral_address
              env.peripheral_size env.sdram_address,
            Out.controller_base ((env.peripheral_address + I2C1_OFFSET) % 2 ^ 32)] ++
          (print_core_clock_speed env.clk (clock_divider a env.regs) a.errno).out ++
          [Out.registers env.regs.C env.regs.S env.regs.DLEN env.regs.A env.regs.FIFO
              env.regs.DIV env.regs.DEL (extract_fedl env.regs.DEL) (extract_redl env.regs.DEL)
              env.regs.CLKT (env.regs.DIV &&& 0xFFFF) (env.regs.CLKT &&& 0xFFFF),
            Out.suggested (suggested_fedl a.cdiv % 2 ^ 16) (suggested_redl a.cdiv % 2 ^ 16)
              (a.cdiv_l / 2 - 1),
            Out.updating_delays (final_fedl a) (microseconds (final_fedl a) core)
              (final_redl a) (microseconds (final_redl a) core),
            Out.timing_updated a.cdiv a.tout,
            Out.stretch_timeout (microseconds a.tout core)] := by
  unfold main_body at hw ⊢
  cases hdev : env.devmem with
  | fails e => simp [hdev] at hw
  | ok =>
    cases hmap : env.mmap with
    | fails e =>
      simp only [hdev, hmap] at hw
      repeat' split at hw
      all_goals simp at hw
    | ok =>
      simp only [hdev, hmap, ne_eq, not_true_eq_false, and_false, if_false] at hw ⊢
      cases hret : (print_core_clock_speed env.clk (clock_divider a env.regs) a.errno).ret with
      | none => simp [hret] at hw
      | some core =>
        simp only [hret] at hw ⊢
        by_cases hset : a.set_new = false
        · simp [hset] at hw
        · by_cases hc : core = 0
          · simp [hset, hc] at hw
          · refine ⟨core, hc, rfl, ?_⟩
            simp [hset, hc, I2CRegisterSet.store]

theorem extract_fedl_pack (f r : Nat) (hf : f < 2 ^ 16) (hr : r < 2 ^ 16) :
    extract_fedl (pack_del f r) = f := by
  rw [pack_del_eq _ _ hf hr, extract_fedl_eq]
  omega

theorem extract_redl_pack (f r : Nat) (hf : f < 2 ^ 16) (hr : r < 2 ^ 16) :
    extract_redl (pack_del f r) = r := by
  rw [pack_del_eq _ _ hf hr, extract_redl_eq]
  omega

/-- A run of `main` that stores anything parsed its arguments successfully. -/
theorem main_written (abi : ABI) (argv : List String) (env : Env)
    (hw : (main abi argv env).writes ≠ []) :
    ∃ a, parse_args abi argv env.errno = .ok a ∧ main abi argv env = main_body a env := by
  unfold main at hw ⊢
  cases hp : parse_args abi argv env.errno with
  | error e => simp [hp] at hw
  | ok a => exact ⟨a, rfl, rfl⟩

/-- What lines 84-109 guarantee when they do not return. -/
theorem parse_cdiv_tout_inv (abi : ABI) (a1 a2 : String) (errno : Int) (a : Args)
    (h : parse_cdiv_tout abi a1 a2 errno = .ok a) :
    ∃ cdiv tout : Nat, 0 < cdiv ∧ cdiv ≤ 65535 ∧ tout ≤ 65535 ∧
      (strtol abi a1).value = cdiv ∧ (strtol abi a2).value = tout ∧
      ∃ e, a = Args.accepted cdiv tout (-1) (-1) e := by
  have key : ∀ e : Int,
      ¬ ((strtol abi a1).value ≤ 0 ∨ (strtol abi a1).value > 0xFFFF) →
      ¬ ((strtol abi a2).value < 0 ∨ (strtol abi a2).value > 0xFFFF) →
      (⟨((strtol abi a1).value.toNat &&& 0xFFFE) % 2 ^ 16,
        ((strtol abi a2).value.toNat &&& 0xFFFF) % 2 ^ 16, true, (strtol abi a1).value, -1, -1,
        e⟩ : Args) = a →
      ∃ cdiv tout : Nat, 0 < cdiv ∧ cdiv ≤ 65535 ∧ tout ≤ 65535 ∧
        (strtol abi a1).value = cdiv ∧ (strtol abi a2).value = tout ∧
        ∃ e, a = Args.accepted cdiv tout (-1) (-1) e := by
    intro e c2 t2 h
    have hc : 0 < (strtol abi a1).value ∧ (strtol abi a1).value ≤ 65535 := by omega
    have ht : 0 ≤ (strtol abi a2).value ∧ (strtol abi a2).value ≤ 65535 := by omega
    refine ⟨(strtol abi a1).value.toNat, (strtol abi a2).value.toNat, by omega, by omega,
      by omega, by omega, by omega, e, ?_⟩
    have e1 : ((strtol abi a1).value.toNat &&& 0xFFFE) % 2 ^ 16
        = 2 * ((strtol abi a1).value.toNat / 2) := by
      rw [land_fffe _ (by omega)]
      omega
    have e2 : ((strtol abi a2).value.toNat &&& 0xFFFF) % 2 ^ 16
        = (strtol abi a2).value.toNat := by
      rw [land_ffff]
      omega
    have e3 : ((strtol abi a1).value.toNat : Int) = (strtol abi a1).value := by omega
    rw [e1, e2] at h
    rw [← h]
    simp only [Args.accepted, e3]
  simp only [parse_cdiv_tout] at h
  by_cases c1 : (strtol abi a1).value = LONG_MIN abi ∨ (strtol abi a1).value = LONG_MAX abi
  · simp [c1] at h
  · by_cases c2 : (strtol abi a1).value ≤ 0 ∨ (strtol abi a1).value > 0xFFFF
    · simp [c1, c2] at h
    · by_cases t1 : (strtol abi a2).value = LONG_MIN abi ∨ (strtol abi a2).value = LONG_MAX abi
      · simp [c1, c2, t1] at h
      · by_cases t2 : (strtol abi a2).value < 0 ∨ (strtol abi a2).value > 0xFFFF
        · simp [c1, c2, t1, t2] at h
        · simp only [c1, c2, t1, t2, if_false, Except.ok.injEq] at h
          exact key _ c2 t2 h

/-- What lines 111-133 guarantee when they do not return. -/
theorem parse_delays_inv (abi : ABI) (a3 a4 : String) (a b : Args)
    (h : parse_delays abi a3 a4 a = .ok b) :
    (strtol abi a3).value < a.cdiv_l / 2 ∧ (strtol abi a4).value < a.cdiv_l / 2 ∧
    b.cdiv = a.cdiv ∧ b.tout = a.tout ∧ b.set_new = a.set_new ∧ b.cdiv_l = a.cdiv_l ∧
    b.fedl_l = (if (strtol abi a3).value ≤ 0 then -(strtol abi a3).value
                else (strtol abi a3).value) ∧
    b.redl_l = (if (strtol abi a4).value ≤ 0 then -(strtol abi a4).value
                else (strtol abi a4).value) := by
  simp only [parse_delays] at h
  by_cases f1 : (strtol abi a3).value = LONG_MIN abi ∨ (strtol abi a3).value = LONG_MAX abi
  · simp [f1] at h
  · by_cases f2 : (strtol abi a3).value ≥ a.cdiv_l / 2
    · simp [f1, f2] at h
    · by_cases r1 : (strtol abi a4).value = LONG_MIN abi ∨ (strtol abi a4).value = LONG_MAX abi
      · simp [f1, f2, r1] at h
      · by_cases r2 : (strtol abi a4).value ≥ a.cdiv_l / 2
        · simp [f1, f2, r1, r2] at h
        · simp only [f1, f2, r1, r2, if_false, Except.ok.injEq] at h
          subst h
          exact ⟨by omega, by omega, rfl, rfl, rfl, rfl, rfl, rfl⟩

/-- Shape of the locals after a successful parse of three or five arguments. -/
theorem parse_args_inv3 (abi : ABI) (prog a1 a2 : String) (errno : Int) (a : Args)
    (h : parse_args abi [prog, a1, a2] errno = .ok a) :
    ∃ cdiv tout : Nat, 0 < cdiv ∧ cdiv ≤ 65535 ∧ tout ≤ 65535 ∧
      (strtol abi a1).value = cdiv ∧ (strtol abi a2).value = tout ∧
      ∃ e, a = Args.accepted cdiv tout (-1) (-1) e :=
  parse_cdiv_tout_inv abi a1 a2 errno a h

theorem parse_args_inv5 (abi : ABI) (prog a1 a2 a3 a4 : String) (errno : Int) (a : Args)
    (h : parse_args abi [prog, a1, a2, a3, a4] errno = .ok a) :
    ∃ cdiv tout : Nat, 0 < cdiv ∧ cdiv ≤ 65535 ∧ tout ≤ 65535 ∧
      (strtol abi a1).value = cdiv ∧ (strtol abi a2).value = tout ∧
      (strtol abi a3).value < (cdiv : Int) / 2 ∧ (strtol abi a4).value < (cdiv : Int) / 2 ∧
      ∃ e, a = Args.accepted cdiv tout
        (if (strtol abi a3).value ≤ 0 then -(strtol abi a3).value else (strtol abi a3).value)
        (if (strtol abi a4).value ≤ 0 then -(strtol abi a4).value else (strtol abi a4).value)
        e := by
  simp only [parse_args] at h
  cases hp : parse_cdiv_tout abi a1 a2 errno with
  | error e => simp [hp] at h
  | ok a0 =>
    simp only [hp] at h
    obtain ⟨cdiv, tout, hc0, hc, ht, h1, h2, e, ha0⟩ := parse_cdiv_tout_inv abi a1 a2 errno a0 hp
    obtain ⟨hf, hr, b1, b2, b3, b4, b5, b6⟩ := parse_delays_inv abi a3 a4 a0 a h
    subst ha0
    simp only [Args.accepted] at hf hr b1 b2 b3 b4
    refine ⟨cdiv, tout, hc0, hc, ht, h1, h2, hf, hr, a.errno, ?_⟩
    cases a
    simp only [Args.accepted] at *
    simp [b1, b2, b3, b4, b5, b6]

/-- Counterexample to C3 as stated: `rpi-i2c 2 50` reaches the register write with the
default delays, writes DIV = 2 and DEL = (1 << 16) | 1, and neither field is below
half of the divider. -/
theorem C3_counterexample :
    (main .lp64 ["rpi-i2c", "2", "50"] (Env.good reset_regs 500000000)).outcome = .exit 0 ∧
    (main .lp64 ["rpi-i2c", "2", "50"] (Env.good reset_regs 500000000)).writes
      = [⟨.DIV, 2⟩, ⟨.CLKT, 50⟩, ⟨.DEL, (1 <<< 16) ||| 1⟩] ∧
    ¬ (2 * extract_fedl (main .lp64 ["rpi-i2c", "2", "50"]
          (Env.good reset_regs 500000000)).regs.DEL
        < (main .lp64 ["rpi-i2c", "2", "50"] (Env.good reset_regs 500000000)).regs.DIV) ∧
    ¬ (2 * extract_redl (main .lp64 ["rpi-i2c", "2", "50"]
          (Env.good reset_regs 500000000)).regs.DEL
        < (main .lp64 ["rpi-i2c", "2", "50"] (Env.good reset_regs 500000000)).regs.DIV) := by
  decide

/-- C3 (amended): for every invocation of `main` that reaches the register write,
either with the default delays and a cdiv argument of at least 4, or with explicit FEDL
and REDL arguments that are both non-negative, the FEDL field (bits 31-16) and the REDL
field (bits 15-0) of the written `DEL` are each strictly less than half of the value
written to `DIV`. -/
theorem C3_delays_below_half_divider (abi : ABI) (env : Env) (argv : List String)
    (hw : (main abi argv env).writes ≠ [])
    (hargs : (∃ prog a1 a2, argv = [prog, a1, a2] ∧ 4 ≤ (strtol abi a1).value) ∨
             (∃ prog a1 a2 a3 a4, argv = [prog, a1, a2, a3, a4] ∧
                0 ≤ (strtol abi a3).value ∧ 0 ≤ (strtol abi a4).value)) :
    2 * extract_fedl (main abi argv env).regs.DEL < (main abi argv env).regs.DIV ∧
    2 * extract_redl (main abi argv env).regs.DEL < (main abi argv env).regs.DIV := by
  obtain ⟨a, hp, hm⟩ := main_written abi argv env hw
  rw [hm] at hw ⊢
  obtain ⟨core, _, _, _, hregs, _⟩ := main_body_written a env hw
  rw [hregs]
  simp only []
  rcases hargs with ⟨prog, a1, a2, rfl, h4⟩ | ⟨prog, a1, a2, a3, a4, rfl, hf0, hr0⟩
  · obtain ⟨cdiv, tout, hc0, hc, ht, h1, h2, e, rfl⟩ := parse_args_inv3 abi prog a1 a2 _ a hp
    have hcd : 4 ≤ cdiv := by omega
    have ef : final_fedl (Args.accepted cdiv tout (-1) (-1) e)
        = suggested_fedl (2 * (cdiv / 2)) % 2 ^ 16 := by
      simp only [final_fedl, Args.accepted]
      rw [if_neg (by decide)]
    have er : final_redl (Args.accepted cdiv tout (-1) (-1) e)
        = suggested_redl (2 * (cdiv / 2)) % 2 ^ 16 := by
      simp only [final_redl, Args.accepted]
      rw [if_neg (by decide)]
    have hF : suggested_fedl (2 * (cdiv / 2)) % 2 ^ 16 < 2 ^ 16 := Nat.mod_lt _ (by norm_num)
    have hR : suggested_redl (2 * (cdiv / 2)) % 2 ^ 16 < 2 ^ 16 := Nat.mod_lt _ (by norm_num)
    rw [ef, er, extract_fedl_pack _ _ hF hR, extract_redl_pack _ _ hF hR, land_ffff]
    simp only [Args.accepted, suggested_fedl, suggested_redl]
    constructor
    · split <;> omega
    · split <;> omega
  · obtain ⟨cdiv, tout, hc0, hc, ht, h1, h2, hf, hr, e, rfl⟩ :=
      parse_args_inv5 abi prog a1 a2 a3 a4 _ a hp
    have ef : final_fedl (Args.accepted cdiv tout
        (if (strtol abi a3).value ≤ 0 then -(strtol abi a3).value else (strtol abi a3).value)
        (if (strtol abi a4).value ≤ 0 then -(strtol abi a4).value else (strtol abi a4).value) e)
        = (strtol abi a3).value.toNat := by
      simp only [final_fedl, Args.accepted]
      split_ifs <;> omega
    have er : final_redl (Args.accepted cdiv tout
        (if (strtol abi a3).value ≤ 0 then -(strtol abi a3).value else (strtol abi a3).value)
        (if (strtol abi a4).value ≤ 0 then -(strtol abi a4).value else (strtol abi a4).value) e)
        = (strtol abi a4).value.toNat := by
      simp only [final_redl, Args.accepted]
      split_ifs <;> omega
    have hF : (strtol abi a3).value.toNat < 2 ^ 16 := by omega
    have hR : (strtol abi a4).value.toNat < 2 ^ 16 := by omega
    rw [ef, er, extract_fedl_pack _ _ hF hR, extract_redl_pack _ _ hF hR, land_ffff]
    simp only [Args.accepted]
    constructor <;> omega

/-- Instances of the amended C3: `rpi-i2c 100 50` (default delays 6 and 25 against
DIV 100) and `rpi-i2c 100 50 49 0` (explicit delays 49 and 0). -/
theorem C3_delays_below_half_divider_witness :
    (2 * extract_fedl (main .lp64 ["rpi-i2c", "100", "50"]
          (Env.good reset_regs 500000000)).regs.DEL
        < (main .lp64 ["rpi-i2c", "100", "50"] (Env.good reset_regs 500000000)).regs.DIV ∧
      2 * extract_redl (main .lp64 ["rpi-i2c", "100", "50"]
          (Env.good reset_regs 500000000)).regs.DEL
        < (main .lp64 ["rpi-i2c", "100", "50"] (Env.good reset_regs 500000000)).regs.DIV) ∧
    (2 * extract_fedl (main .lp64 ["rpi-i2c", "100", "50", "49", "0"]
          (Env.good reset_regs 500000000)).regs.DEL
        < (main .lp64 ["rpi-i2c", "100", "50", "49", "0"]
            (Env.good reset_regs 500000000)).regs.DIV ∧
      2 * extract_redl (main .lp64 ["rpi-i2c", "100", "50", "49", "0"]
          (Env.good reset_regs 500000000)).regs.DEL
        < (main .lp64 ["rpi-i2c", "100", "50", "49", "0"]
            (Env.good reset_regs 500000000)).regs.DIV) :=
  ⟨C3_delays_below_half_divider .lp64 (Env.good reset_regs 500000000) ["rpi-i2c", "100", "50"]
      (by decide) (Or.inl ⟨"rpi-i2c", "100", "50", rfl, by decide⟩),
    C3_delays_below_half_divider .lp64 (Env.good reset_regs 500000000)
      ["rpi-i2c", "100", "50", "49", "0"]
      (by decide) (Or.inr ⟨"rpi-i2c", "100", "50", "49", "0", rfl, by decide, by decide⟩)⟩

/-- A successful parse that requests an update comes from three or five arguments and
leaves the locals in the accepted shape. -/
theorem parse_args_set_new (abi : ABI) (argv : List String) (errno : Int) (a : Args)
    (h : parse_args abi argv errno = .ok a) (hset : a.set_new = true) :
    ∃ (cdiv tout : Nat) (f r e : Int), 0 < cdiv ∧ cdiv ≤ 65535 ∧ tout ≤ 65535 ∧
      a = Args.accepted cdiv tout f r e := by
  unfold parse_args at h
  split at h
  · simp only [Except.ok.injEq] at h
    subst h
    simp [Args.init] at hset
  · obtain ⟨cdiv, tout, hc0, hc, ht, _, _, e, ha⟩ := parse_cdiv_tout_inv abi _ _ errno a h
    exact ⟨cdiv, tout, -1, -1, e, hc0, hc, ht, ha⟩
  · rename_i p a1 a2 a3 a4
    have h5 : parse_args abi [p, a1, a2, a3, a4] errno = .ok a := by
      simp only [parse_args]
      exact h
    obtain ⟨cdiv, tout, hc0, hc, ht, _, _, _, _, e, ha⟩ := parse_args_inv5 abi p a1 a2 a3 a4 errno a h5
    exact ⟨cdiv, tout, _, _, e, hc0, hc, ht, ha⟩
  · simp at h

theorem final_fedl_lt (a : Args) : final_fedl a < 2 ^ 16 := by
  unfold final_fedl
  split
  · omega
  · exact Nat.mod_lt _ (by norm_num)

theorem final_redl_lt (a : Args) : final_redl a < 2 ^ 16 := by
  unfold final_redl
  split
  · omega
  · exact Nat.mod_lt _ (by norm_num)

theorem microseconds_exact (x core : Nat) (h : x * 1000000 ≤ 2147483647) :
    microseconds x core = x * 1000000 / core := by
  unfold microseconds
  rw [Nat.mod_eq_of_lt (by omega)]

/-- Counterexample to C7 as stated. With a 500 MHz core clock, `rpi-i2c 100 50` shows a
clock-stretch timeout of 10 and delays of 1 and 5 microseconds, where
`x * 1000000 / core_clock_rate` is 0 for each; the divisor used is the I2C clock
`core_clock_rate / cdiv`. And `rpi-i2c 2 60000` shows 16 where even
`60000 * 1000000 / (500000000 / 2)` is 240: the product wrapped around in 32 bits. -/
theorem C7_counterexample :
    (main .lp64 ["rpi-i2c", "100", "50"] (Env.good reset_regs 500000000)).out.getLast?
      = some (Out.stretch_timeout 10) ∧
    Out.stretch_timeout (50 * 1000000 / 500000000)
      ∉ (main .lp64 ["rpi-i2c", "100", "50"] (Env.good reset_regs 500000000)).out ∧
    Out.updating_delays 6 1 25 5
      ∈ (main .lp64 ["rpi-i2c", "100", "50"] (Env.good reset_regs 500000000)).out ∧
    Out.updating_delays 6 (6 * 1000000 / 500000000) 25 (25 * 1000000 / 500000000)
      ∉ (main .lp64 ["rpi-i2c", "100", "50"] (Env.good reset_regs 500000000)).out ∧
    (main .lp64 ["rpi-i2c", "2", "60000"] (Env.good reset_regs 500000000)).out.getLast?
      = some (Out.stretch_timeout 16) ∧
    Out.stretch_timeout (60000 * 1000000 / (500000000 / 2))
      ∉ (main .lp64 ["rpi-i2c", "2", "60000"] (Env.good reset_regs 500000000)).out := by
  decide

/-- C7 (amended): for every invocation that reaches the register write, with the core
clock file reading `hz`, the one clock-stretch timeout line shows
`tout * 1000000 / (hz / d)` and the one delay line shows FEDL and REDL with
`FEDL * 1000000 / (hz / d)` and `REDL * 1000000 / (hz / d)`, where `hz / d` is the I2C
clock returned by `print_core_clock_speed` (d is the divider written to `DIV`, or the
low half of the previous `DIV` when that is 0), whenever the three products fit in `int`
so that no wrap-around occurs. Here tout, FEDL and REDL are the values written to
`CLKT` and `DEL`. -/
theorem C7_displayed_microseconds (abi : ABI) (env : Env) (argv : List String) (hz : Nat)
    (hw : (main abi argv env).writes ≠ [])
    (hclk : env.clk = .rate hz)
    (hT : (main abi argv env).regs.CLKT * 1000000 ≤ 2147483647)
    (hF : extract_fedl (main abi argv env).regs.DEL * 1000000 ≤ 2147483647)
    (hR : extract_redl (main abi argv env).regs.DEL * 1000000 ≤ 2147483647) :
    (∀ us, Out.stretch_timeout us ∈ (main abi argv env).out ↔
      us = (main abi argv env).regs.CLKT * 1000000 /
            (hz % 2 ^ 32 / (if (main abi argv env).regs.DIV ≠ 0
                            then (main abi argv env).regs.DIV else env.regs.DIV % 2 ^ 16))) ∧
    (∀ f fus r rus, Out.updating_delays f fus r rus ∈ (main abi argv env).out ↔
      (f = extract_fedl (main abi argv env).regs.DEL ∧
       fus = extract_fedl (main abi argv env).regs.DEL * 1000000 /
            (hz % 2 ^ 32 / (if (main abi argv env).regs.DIV ≠ 0
                            then (main abi argv env).regs.DIV else env.regs.DIV % 2 ^ 16)) ∧
       r = extract_redl (main abi argv env).regs.DEL ∧
       rus = extract_redl (main abi argv env).regs.DEL * 1000000 /
            (hz % 2 ^ 32 / (if (main abi argv env).regs.DIV ≠ 0
                            then (main abi argv env).regs.DIV else env.regs.DIV % 2 ^ 16)))) := by
  obtain ⟨a, hp, hm⟩ := main_written abi argv env hw
  rw [hm] at hw hT hF hR ⊢
  have hset : a.set_new = true := by
    by_contra hs
    have hs2 : a.set_new = false := by simpa using hs
    exact hw (main_body_read_only a env hs2).1
  obtain ⟨cdiv, tout, f, r, e, hc0, hc, ht, rfl⟩ := parse_args_set_new abi argv _ a hp hset
  obtain ⟨core, hcore, hret, _, hregs, hout⟩ := main_body_written _ env hw
  rw [hregs] at hT hF hR ⊢
  simp only [] at hT hF hR ⊢
  rw [hout]
  have hFl := final_fedl_lt (Args.accepted cdiv tout f r e)
  have hRl := final_redl_lt (Args.accepted cdiv tout f r e)
  rw [extract_fedl_pack _ _ hFl hRl] at hF ⊢
  rw [extract_redl_pack _ _ hFl hRl] at hR ⊢
  have eT : (Args.accepted cdiv tout f r e).tout &&& 0xFFFF = tout := by
    rw [land_ffff]
    simp only [Args.accepted]
    omega
  have eD : (Args.accepted cdiv tout f r e).cdiv &&& 0xFFFF = 2 * (cdiv / 2) := by
    rw [land_ffff]
    simp only [Args.accepted]
    omega
  rw [eT] at hT ⊢
  rw [eD]
  have hdiv : clock_divider (Args.accepted cdiv tout f r e) env.regs
      = (if 2 * (cdiv / 2) ≠ 0 then 2 * (cdiv / 2) else env.regs.DIV % 2 ^ 16) := by
    simp only [clock_divider, Args.accepted]
    by_cases h2 : 2 * (cdiv / 2) ≠ 0
    · have : (0 : Int) < (cdiv : Int) ∧ 2 * (cdiv / 2) ≠ 0 := ⟨by omega, h2⟩
      rw [if_pos this, if_pos h2]
      omega
    · have : ¬ ((0 : Int) < (cdiv : Int) ∧ 2 * (cdiv / 2) ≠ 0) := fun h => h2 h.2
      rw [if_neg this, if_neg h2]
  rw [hdiv] at hret hout
  rw [hdiv]
  have eTT : (Args.accepted cdiv tout f r e).tout = tout := rfl
  rw [eTT]
  generalize final_fedl (Args.accepted cdiv tout f r e) = F at hF hFl hRl ⊢
  generalize final_redl (Args.accepted cdiv tout f r e) = R at hR hRl ⊢
  generalize (if 2 * (cdiv / 2) ≠ 0 then 2 * (cdiv / 2) else env.regs.DIV % 2 ^ 16) = D
    at hret ⊢
  have hcv : core = hz % 2 ^ 32 / D := by
    simp only [print_core_clock_speed, hclk] at hret
    by_cases h0 : D = 0
    · simp [h0] at hret
    · simp only [h0, if_false, Option.some.injEq] at hret
      exact hret.symm
  rw [← hcv]
  rw [microseconds_exact _ _ hT, microseconds_exact _ _ hF, microseconds_exact _ _ hR]
  simp only [print_core_clock_speed, hclk]
  constructor
  · intro us
    split_ifs <;> simp
  · intro f' fus r' rus
    split_ifs <;> simp

/-- Instance of the amended C7: `rpi-i2c 100 50` with a 500 MHz core clock (I2C clock
5 MHz) shows a timeout of 10 microseconds and delays of 1 and 5 microseconds. -/
theorem C7_displayed_microseconds_witness :
    Out.stretch_timeout 10
      ∈ (main .lp64 ["rpi-i2c", "100", "50"] (Env.good reset_regs 500000000)).out ∧
    Out.updating_delays 6 1 25 5
      ∈ (main .lp64 ["rpi-i2c", "100", "50"] (Env.good reset_regs 500000000)).out :=
  ⟨((C7_displayed_microseconds .lp64 (Env.good reset_regs 500000000) ["rpi-i2c", "100", "50"]
      500000000 (by decide) rfl (by decide) (by decide) (by decide)).1 10).mpr (by decide),
   ((C7_displayed_microseconds .lp64 (Env.good reset_regs 500000000) ["rpi-i2c", "100", "50"]
      500000000 (by decide) rfl (by decide) (by decide) (by decide)).2 6 1 25 5).mpr
      (by decide)⟩

/-- Away from the two sentinels `LONG_MIN` and `LONG_MAX`, the range check of lines
84-109 does what its messages say: any cdiv outside (0, 65535] or tout outside
[0, 65535], however large, makes `main` return `ERANGE` with nothing written. -/
theorem cdiv_tout_range_check (abi : ABI) (env : Env) (prog : String) (c t : Int)
    (hc : c ≠ LONG_MAX abi ∧ c ≠ LONG_MIN abi) (ht : t ≠ LONG_MAX abi ∧ t ≠ LONG_MIN abi)
    (hout : c ≤ 0 ∨ 65535 < c ∨ t < 0 ∨ 65535 < t) :
    (main abi [prog, decimal_int c, decimal_int t] env).outcome = .exit ERANGE ∧
    (main abi [prog, decimal_int c, decimal_int t] env).writes = [] ∧
    (main abi [prog, decimal_int c, decimal_int t] env).regs = env.regs := by
  have hM := LONG_MAX_ge abi
  have hm := LONG_MIN_le abi
  simp only [main, parse_args, parse_cdiv_tout, strtol_decimal_int, strtol_clamp]
  by_cases c1 : c > LONG_MAX abi
  · simp [c1]
  · by_cases c2 : c < LONG_MIN abi
    · simp [c1, c2]
    · by_cases c3 : c ≤ 0 ∨ c > 0xFFFF
      · simp [c1, c2, c3, hc.1, hc.2]
      · by_cases t1 : t > LONG_MAX abi
        · simp [c1, c2, c3, hc.1, hc.2, t1]
        · by_cases t2 : t < LONG_MIN abi
          · simp [c1, c2, c3, hc.1, hc.2, t1, t2]
          · have t3 : t < 0 ∨ t > 0xFFFF := by omega
            simp [c1, c2, c3, hc.1, hc.2, t1, t2, ht.1, ht.2, t3]

/-- The read path survives an unreadable clock: when `/dev/mem` opens and the window
maps but `print_core_clock_speed` cannot open, read or close the clock file, the
invocation without arguments returns 0, reports the clock as unavailable and writes
nothing. -/
theorem read_only_without_clock (abi : ABI) (env : Env) (prog : String)
    (hopen : env.devmem = .ok) (hmap : env.mmap = .ok) (hclk : ∀ hz, env.clk ≠ .rate hz) :
    (main abi [prog] env).outcome = .exit 0 ∧
    (main abi [prog] env).writes = [] ∧
    (∃ why, Out.clock_unavailable why ∈ (main abi [prog] env).out) := by
  have h : main abi [prog] env = main_body (Args.init env.errno) env := rfl
  rw [h]
  cases hc : env.clk with
  | rate hz => exact absurd hc (hclk hz)
  | cannot_open e =>
    simp [main_body, hopen, hmap, hc, print_core_clock_speed, Args.init]
  | cannot_read =>
    simp [main_body, hopen, hmap, hc, print_core_clock_speed, Args.init]
  | cannot_close hz e =>
    simp [main_body, hopen, hmap, hc, print_core_clock_speed, Args.init]

/-- Every write invocation that passes validation on a machine whose clock file is
unreadable ends in the division by zero of line 214, with nothing written. -/
theorem write_without_clock (a : Args) (env : Env)
    (hset : a.set_new = true) (hopen : env.devmem = .ok) (hmap : env.mmap = .ok)
    (hclk : ∀ hz, env.clk ≠ .rate hz) :
    (main_body a env).outcome = .fault .div_by_zero ∧ (main_body a env).writes = [] := by
  cases hc : env.clk with
  | rate hz => exact absurd hc (hclk hz)
  | cannot_open e =>
    simp [main_body, hopen, hmap, hc, print_core_clock_speed, hset]
  | cannot_read =>
    simp [main_body, hopen, hmap, hc, print_core_clock_speed, hset]
  | cannot_close hz e =>
    simp [main_body, hopen, hmap, hc, print_core_clock_speed, hset]

/-- C2 at its failing input: with cdiv 100 the FEDL argument `-50` has absolute value
cdiv/2, yet the run is accepted and FEDL = 50 is written; the argument `50` is rejected
with `ERANGE` and nothing is written. -/
theorem C2_negative_delay_is_not_range_checked :
    (main .lp64 ["rpi-i2c", "100", "50", "-50", "10"]
        (Env.good reset_regs 500000000)).outcome = .exit 0 ∧
    (main .lp64 ["rpi-i2c", "100", "50", "-50", "10"] (Env.good reset_regs 500000000)).writes
      = [⟨.DIV, 100⟩, ⟨.CLKT, 50⟩, ⟨.DEL, (50 <<< 16) ||| 10⟩] ∧
    (main .lp64 ["rpi-i2c", "100", "50", "50", "10"]
        (Env.good reset_regs 500000000)).outcome = .exit ERANGE ∧
    (main .lp64 ["rpi-i2c", "100", "50", "50", "10"] (Env.good reset_regs 500000000)).writes
      = [] := by
  decide

/-- C4 at its failing input: a cdiv argument equal to `LONG_MAX` (out of (0, 65535]) takes
the `return errno` path with `errno` still 0, so `main` returns 0 instead of `ERANGE`;
nothing is written. One more than `LONG_MAX` does give `ERANGE`. -/
theorem C4_long_max_returns_zero :
    (main .lp64 ["rpi-i2c", "9223372036854775807", "50"]
        (Env.good reset_regs 500000000)).outcome = .exit 0 ∧
    (main .lp64 ["rpi-i2c", "9223372036854775807", "50"]
        (Env.good reset_regs 500000000)).writes = [] ∧
    (main .ilp32 ["rpi-i2c", "2147483647", "50"]
        (Env.good reset_regs 500000000)).outcome = .exit 0 ∧
    (main .lp64 ["rpi-i2c", "100", "-9223372036854775808"]
        (Env.good reset_regs 500000000)).outcome = .exit 0 ∧
    (main .lp64 ["rpi-i2c", "100", "-9223372036854775808"]
        (Env.good reset_regs 500000000)).writes = [] ∧
    (main .lp64 ["rpi-i2c", "9223372036854775808", "50"]
        (Env.good reset_regs 500000000)).outcome = .exit ERANGE := by
  decide

/-- C6 at its failing input: with cdiv 100 the REDL argument `60` is rejected with
`ERANGE` and nothing is written, while `-60` is accepted and REDL = 60 is written; below
cdiv/2 the two signs agree (`-5` and `5` give the same result). -/
theorem C6_sign_changes_the_outcome :
    (main .lp64 ["rpi-i2c", "100", "50", "5", "60"]
        (Env.good reset_regs 500000000)).outcome = .exit ERANGE ∧
    (main .lp64 ["rpi-i2c", "100", "50", "5", "60"] (Env.good reset_regs 500000000)).writes
      = [] ∧
    (main .lp64 ["rpi-i2c", "100", "50", "5", "-60"]
        (Env.good reset_regs 500000000)).outcome = .exit 0 ∧
    (main .lp64 ["rpi-i2c", "100", "50", "5", "-60"] (Env.good reset_regs 500000000)).writes
      = [⟨.DIV, 100⟩, ⟨.CLKT, 50⟩, ⟨.DEL, (5 <<< 16) ||| 60⟩] ∧
    main .lp64 ["rpi-i2c", "100", "50", "-5", "5"] (Env.good reset_regs 500000000)
      = main .lp64 ["rpi-i2c", "100", "50", "5", "5"] (Env.good reset_regs 500000000) := by
  decide

/-- C8 at its failing input: when the core clock file cannot be opened,
`print_core_clock_speed` yields 0 and the write invocation `rpi-i2c 100 50` reaches the
division by that 0 at line 214, before any register is written; the read-only
invocation on the same machine returns 0. -/
theorem C8_unreadable_clock_divides_by_zero :
    (main .lp64 ["rpi-i2c", "100", "50"] (Env.no_clock reset_regs)).outcome
      = .fault .div_by_zero ∧
    (main .lp64 ["rpi-i2c", "100", "50"] (Env.no_clock reset_regs)).writes = [] ∧
    (main .lp64 ["rpi-i2c", "100", "50"] (Env.no_clock reset_regs)).regs = reset_regs ∧
    (main .lp64 ["rpi-i2c"] (Env.no_clock reset_regs)).outcome = .exit 0 := by
  decide

/-- C9 at its failing input: the tout argument `abc` is read as 0 and the run completes
with status 0, writing DIV = 100 and CLKT = 0; likewise `12abc` is read as 12 and an
empty string as 0, also for FEDL and REDL. -/
theorem C9_unparseable_argument_is_accepted :
    (main .lp64 ["rpi-i2c", "100", "abc"] (Env.good reset_regs 500000000)).outcome = .exit 0 ∧
    (main .lp64 ["rpi-i2c", "100", "abc"] (Env.good reset_regs 500000000)).writes
      = [⟨.DIV, 100⟩, ⟨.CLKT, 0⟩, ⟨.DEL, (6 <<< 16) ||| 25⟩] ∧
    (main .lp64 ["rpi-i2c", "12abc", ""] (Env.good reset_regs 500000000)).outcome = .exit 0 ∧
    (main .lp64 ["rpi-i2c", "12abc", ""] (Env.good reset_regs 500000000)).writes
      = [⟨.DIV, 12⟩, ⟨.CLKT, 0⟩, ⟨.DEL, (1 <<< 16) ||| 3⟩] ∧
    (main .lp64 ["rpi-i2c", "100", "50", "abc", "7x"]
        (Env.good reset_regs 500000000)).outcome = .exit 0 ∧
    (main .lp64 ["rpi-i2c", "100", "50", "abc", "7x"] (Env.good reset_regs 500000000)).writes
      = [⟨.DIV, 100⟩, ⟨.CLKT, 50⟩, ⟨.DEL, (0 <<< 16) ||| 7⟩] := by
  decide

end RpiI2c
